import Mathlib

/-!
Verification development for the what-we-use scan pipeline.

The definitions below are a shallow embedding of the repository's core
modules:
  * packages/shared/src/index.ts   (slugify, normalizeRisk, getOverallRisk)
  * api/src/rules.js               (scoreCleaningProduct)
  * the swap-suggestion generator  (getSwapSuggestions)
  * apps/api/lib/gemini.ts         (safeJsonParse, getRetryDelayMs, fetchWithRetry)
  * apps/api/lib/scan.ts           (createScanResult and its helpers)

JavaScript strings are modelled as Lean `String` (lists of characters);
host built-ins (`trim`, `toLowerCase`, `Number`, `JSON.parse`, `fetch`,
`Math.random`) are modelled by small explicit functions or by parameters of
the embedding, as noted at each definition.
-/

/-- Model of the characters removed by JavaScript `String.prototype.trim`
(ASCII whitespace). -/
def isJsSpace (c : Char) : Bool :=
  c == ' ' || c == '\t' || c == '\n' || c == '\r' || c == '\x0b' || c == '\x0c'

/-- Model of JavaScript `String.prototype.trim`. -/
def jsTrim (s : String) : String :=
  ⟨((s.data.dropWhile isJsSpace).reverse.dropWhile isJsSpace).reverse⟩

/-- ASCII lowering of one character, model of `toLowerCase` per character. -/
def asciiLower (c : Char) : Char :=
  if 65 ≤ c.toNat && c.toNat ≤ 90 then Char.ofNat (c.toNat + 32) else c

/-- Model of JavaScript `String.prototype.toLowerCase` (ASCII range). -/
def jsToLower (s : String) : String :=
  ⟨s.data.map asciiLower⟩

/-- Does the first character list start with the second one? -/
def listStartsWith : List Char → List Char → Bool
  | _, [] => true
  | [], _ :: _ => false
  | c :: cs, d :: ds => c == d && listStartsWith cs ds

/-- Is the second character list a contiguous sublist of the first?
Model of JavaScript `String.prototype.includes`. -/
def listContainsSub : List Char → List Char → Bool
  | [], needle => needle.isEmpty
  | c :: cs, needle => listStartsWith (c :: cs) needle || listContainsSub cs needle

/-- Model of JavaScript `hay.includes(needle)`. -/
def strIncludes (hay needle : String) : Bool :=
  listContainsSub hay.data needle.data

/-- Model of JavaScript `s.startsWith(p)`. -/
def strStartsWith (s p : String) : Bool :=
  listStartsWith s.data p.data

/-- Split a character list at every delimiter occurrence, keeping empty
segments, accumulating the current segment in reverse. -/
def splitCharsAux (delims : List Char) : List Char → List Char → List (List Char)
  | [], cur => [cur.reverse]
  | c :: cs, cur =>
    if delims.contains c then cur.reverse :: splitCharsAux delims cs []
    else splitCharsAux delims cs (c :: cur)

/-- Model of JavaScript `String.prototype.split` on a character class,
e.g. `text.split(/[,;\n]/g)`. -/
def jsSplitAny (s : String) (delims : List Char) : List String :=
  (splitCharsAux delims s.data []).map String.mk

/-- Model of JavaScript `Array.prototype.join(sep)`. -/
def jsJoin (sep : String) : List String → String
  | [] => ""
  | [s] => s
  | s :: rest => s ++ sep ++ jsJoin sep rest

/-- `IngredientRisk` union type from packages/shared/src/index.ts. -/
inductive IngredientRisk
  | safe
  | caution
  | avoid
deriving DecidableEq

/-- The string literal carried by each `IngredientRisk` value in the source. -/
def riskToString : IngredientRisk → String
  | .safe => "safe"
  | .caution => "caution"
  | .avoid => "avoid"

/-- `RISK_ORDER` table from packages/shared/src/index.ts. -/
def riskOrder : IngredientRisk → Nat
  | .safe => 1
  | .caution => 2
  | .avoid => 3

/-- Characters kept verbatim by `slugify` (the regex class `[a-z0-9]`). -/
def slugChar (c : Char) : Bool :=
  ('a' ≤ c && c ≤ 'z') || ('0' ≤ c && c ≤ '9')

/-- Replace every maximal run of non-slug characters by a single hyphen:
the `replace(/[^a-z0-9]+/g, "-")` step of `slugify`.  The boolean flag
records whether the previous character was inside such a run. -/
def collapseNonSlugRuns : List Char → Bool → List Char
  | [], _ => []
  | c :: cs, inRun =>
    if slugChar c then c :: collapseNonSlugRuns cs false
    else if inRun then collapseNonSlugRuns cs true
    else '-' :: collapseNonSlugRuns cs true

/-- `slugify` from packages/shared/src/index.ts: lowercase, trim, collapse
non-alphanumeric runs to one hyphen, strip leading/trailing hyphens. -/
def slugify (value : String) : String :=
  let t := jsTrim (jsToLower value)
  let collapsed := collapseNonSlugRuns t.data false
  ⟨((collapsed.dropWhile (· == '-')).reverse.dropWhile (· == '-')).reverse⟩

/-- `normalizeRisk` from packages/shared/src/index.ts.  `none` models the
`null`/`undefined` inputs accepted by the TypeScript signature; JavaScript
`String(value || "")` maps those to the empty string. -/
def normalizeRisk (value : Option String) : IngredientRisk :=
  let normalized := jsToLower (jsTrim (value.getD ""))
  if normalized ∈ (["avoid", "high", "severe", "very high"] : List String) then .avoid
  else if normalized ∈ (["caution", "moderate", "medium", "unknown"] : List String) then .caution
  else .safe

/-- `Ingredient` record from packages/shared/src/index.ts. -/
structure Ingredient where
  name : String
  slug : String
  risk : IngredientRisk
  notes : Option String
deriving DecidableEq

/-- `getOverallRisk` from packages/shared/src/index.ts: a fold that keeps
the highest-severity risk seen so far, starting from `"safe"`. -/
def getOverallRisk (ingredients : List Ingredient) : IngredientRisk :=
  ingredients.foldl
    (fun top item =>
      let risk := normalizeRisk (some (riskToString item.risk))
      if riskOrder top < riskOrder risk then risk else top)
    IngredientRisk.safe

/-- The slug-keyed first-occurrence filter of apps/api/lib/scan.ts
(the `uniqueNames` computation, lines 77-83): `seen` is the mutable `Set`
of already-emitted slugs. -/
def dedupeAux (seen : List String) : List String → List String
  | [] => []
  | name :: rest =>
    let slug := slugify name
    if slug = "" ∨ seen.contains slug then dedupeAux seen rest
    else name :: dedupeAux (slug :: seen) rest

/-- Deduplication by slug with first-seen casing kept, as performed on the
source names in `createScanResult`. -/
def dedupe (names : List String) : List String :=
  dedupeAux [] names

/-- `norm` helper of api/src/rules.js: `String(s || "").toLowerCase().trim()`. -/
def rulesNorm (s : String) : String :=
  jsTrim (jsToLower s)

/-- `hasAny` helper of api/src/rules.js. -/
def hasAny (text : String) (terms : List String) : Bool :=
  terms.any (fun x => strIncludes (rulesNorm text) x)

/-- One finding of the deterministic flags engine (api/src/rules.js). -/
structure RuleFlag where
  id : String
  title : String
  reason : String
  level : String
deriving DecidableEq

/-- The input record read by `scoreCleaningProduct`.  Missing fields of the
JavaScript object coerce to `""`/`[]`, which this total model represents
directly. -/
structure CleaningProduct where
  name_guess : String
  ingredients_raw : String
  ingredients_list : List String
  warnings : List String

/-- User preferences; `none` models an absent key, resolved against the
MVP defaults inside `scoreCleaningProduct` via `??`. -/
structure RulePreferences where
  fragranceFree : Option Bool
  bleachFree : Option Bool
  ammoniaFree : Option Bool
  avoidQuats : Option Bool
  sensitiveMode : Option Bool

/-- Result record of `scoreCleaningProduct`. -/
structure ScoredProduct where
  flags : List RuleFlag
  handlingTips : List String
  overall : String
deriving DecidableEq

/-- Flag pushed by rule 1 of api/src/rules.js. -/
def fragranceFlag : RuleFlag :=
  ⟨"contains_fragrance", "Contains fragrance",
   "Fragrance can be irritating for sensitive users. Consider fragrance free alternatives.",
   "info"⟩

/-- Flag pushed by rule 2 of api/src/rules.js. -/
def bleachFlag : RuleFlag :=
  ⟨"contains_bleach", "Contains chlorine bleach",
   "Bleach is effective but can be harsh and can form harmful gases if mixed with acids or ammonia.",
   "caution"⟩

/-- Flag pushed by rule 3 of api/src/rules.js. -/
def ammoniaFlag : RuleFlag :=
  ⟨"contains_ammonia", "Contains ammonia",
   "Ammonia can be irritating and should never be mixed with bleach.",
   "caution"⟩

/-- Flag pushed by rule 4 of api/src/rules.js. -/
def quatsFlag : RuleFlag :=
  ⟨"contains_quats", "Contains quaternary ammonium compounds",
   "Some people prefer to avoid quats due to sensitivity concerns and residues on surfaces.",
   "info"⟩

/-- Flag pushed by rule 5 of api/src/rules.js. -/
def corrosiveFlag : RuleFlag :=
  ⟨"corrosive_warning", "Corrosive or burn warning",
   "Label indicates corrosive risk. Use gloves and avoid contact with skin and eyes.",
   "caution"⟩

/-- Flag pushed by rule 6 of api/src/rules.js. -/
def alkaliFlag : RuleFlag :=
  ⟨"strong_alkali", "Strong alkaline ingredient",
   "Strong alkalis can cause burns and should be handled carefully.",
   "caution"⟩

/-- Flag pushed by rule 7 of api/src/rules.js. -/
def acidFlag : RuleFlag :=
  ⟨"strong_acid", "Strong acid ingredient",
   "Strong acids can cause burns and release fumes. Use with ventilation.",
   "caution"⟩

/-- Flag pushed by rule 8 of api/src/rules.js. -/
def solventFlag : RuleFlag :=
  ⟨"solvent_based", "Solvent based cleaner",
   "Solvents can be irritating. Consider low odor or soap based alternatives if sensitive.",
   "info"⟩

/-- Flag pushed by rule 9 of api/src/rules.js. -/
def aerosolFlag : RuleFlag :=
  ⟨"aerosol", "Aerosol product",
   "Aerosols can increase inhalation exposure. Consider pump sprays or liquids.",
   "info"⟩

/-- The nine flag records the engine can emit, in rule order. -/
def ruleFlagList : List RuleFlag :=
  [fragranceFlag, bleachFlag, ammoniaFlag, quatsFlag, corrosiveFlag,
   alkaliFlag, acidFlag, solventFlag, aerosolFlag]

/-- `scoreCleaningProduct` from api/src/rules.js: nine sequential keyword
rules accumulating flags and handling tips, then the overall bucket
computed by two sequential reassignments. -/
def scoreCleaningProduct (product : CleaningProduct) (preferences : RulePreferences) :
    ScoredProduct :=
  let name := rulesNorm product.name_guess
  let ingredientsRaw := rulesNorm product.ingredients_raw
  let ingredientsList := product.ingredients_list
  let warningsText := jsJoin " | " (product.warnings.map rulesNorm)
  let allText := jsJoin " | " [name, ingredientsRaw, jsJoin " " ingredientsList, warningsText]
  let fragranceFree := preferences.fragranceFree.getD true
  let bleachFree := preferences.bleachFree.getD false
  let ammoniaFree := preferences.ammoniaFree.getD false
  let avoidQuats := preferences.avoidQuats.getD false
  let sensitiveMode := preferences.sensitiveMode.getD false
  let c1 := fragranceFree && hasAny allText ["fragrance", "parfum", "perfume"]
  let c2 := bleachFree && hasAny allText ["sodium hypochlorite", "hypochlorite", "chlorine bleach", "bleach"]
  let c3 := ammoniaFree && hasAny allText ["ammonia", "ammonium hydroxide"]
  let c4 := avoidQuats && hasAny allText
    ["benzalkonium chloride", "didecyldimethylammonium chloride",
     "alkyl dimethyl benzyl ammonium chloride", "quat"]
  let c5 := hasAny warningsText ["corrosive", "causes burns", "severe skin burns", "eye damage"]
  let c6 := hasAny allText ["sodium hydroxide", "lye", "caustic"]
  let c7 := hasAny allText ["hydrochloric acid", "muriatic", "sulfuric acid", "phosphoric acid"]
  let c8 := hasAny allText ["2-butoxyethanol", "glycol ether", "solvent"]
  let c9 := hasAny allText ["aerosol", "propellant", "pressurized"]
  let flags : List RuleFlag :=
    (if c1 then [fragranceFlag] else []) ++
    ((if c2 then [bleachFlag] else []) ++
    ((if c3 then [ammoniaFlag] else []) ++
    ((if c4 then [quatsFlag] else []) ++
    ((if c5 then [corrosiveFlag] else []) ++
    ((if c6 then [alkaliFlag] else []) ++
    ((if c7 then [acidFlag] else []) ++
    ((if c8 then [solventFlag] else []) ++
    (if c9 then [aerosolFlag] else []))))))))
  let handlingTips : List String :=
    (if c2 then ["Never mix bleach with acids (vinegar) or ammonia. Ventilate well."] else []) ++
    (if c3 then ["Never mix ammonia with bleach. Ventilate well."] else []) ++
    (if c5 then ["Use gloves. Avoid splashes. Keep away from children and pets."] else []) ++
    (if c6 then ["Avoid contact. Rinse thoroughly. Store securely."] else []) ++
    (if c7 then ["Ventilate well. Avoid mixing with bleach."] else []) ++
    (if c8 && sensitiveMode then ["Ventilate well and avoid prolonged exposure."] else [])
  let overall1 := if flags.any (fun f => f.level == "caution") then "use_with_care" else "keep"
  let overall :=
    if 3 ≤ flags.length ∧ flags.any (fun f => strIncludes f.id "corrosive" || strIncludes f.id "strong_")
    then "consider_swap" else overall1
  ⟨flags, handlingTips, overall⟩

/-- One entry of the swap-suggestion list. -/
structure SwapSuggestion where
  title : String
  why : String
  type : String
deriving DecidableEq

/-- The neutral baseline suggestion always appended by `getSwapSuggestions`
before truncation. -/
def baselineSuggestion : SwapSuggestion :=
  ⟨"Microfiber cloth + warm soapy water",
   "Often sufficient for many surfaces and reduces chemical load.",
   "pattern"⟩

/-- The pattern-keyed suggestions accumulated by `getSwapSuggestions` from
the set of fired flag ids, in source order. -/
def patternSuggestions (ids : List String) : List SwapSuggestion :=
  (if ids.contains "contains_bleach" then
    [⟨"Oxygen based cleaner (non chlorine)",
      "Often effective for whitening and stain removal without chlorine bleach.", "pattern"⟩,
     ⟨"Hydrogen peroxide bathroom cleaner",
      "Good for bathrooms, with less harsh fumes for many users.", "pattern"⟩]
   else []) ++
  (if ids.contains "contains_fragrance" then
    [⟨"Fragrance free all purpose cleaner",
      "Reduces scent exposure for sensitive users.", "pattern"⟩,
     ⟨"Fragrance free dish soap or laundry detergent",
      "Cuts fragrance across common sources.", "pattern"⟩]
   else []) ++
  (if ids.contains "aerosol" then
    [⟨"Pump spray alternative", "Less airborne mist than aerosols.", "pattern"⟩]
   else []) ++
  (if ids.contains "contains_quats" then
    [⟨"Soap based cleaner", "Good everyday option if you prefer to avoid quats.", "pattern"⟩]
   else []) ++
  (if ids.contains "strong_acid" || ids.contains "strong_alkali" || ids.contains "corrosive_warning" then
    [⟨"Milder pH cleaner for routine use",
      "Use strong products only when needed, keep routine cleaning gentler.", "pattern"⟩]
   else [])

/-- `getSwapSuggestions` from the swaps module: pattern suggestions keyed by
the fired flag-id set, then the baseline entry, then `slice(0, 4)`.
The `preferences` parameter is accepted but unused, as in the source. -/
def getSwapSuggestions (scored : ScoredProduct) (_preferences : RulePreferences) :
    List SwapSuggestion :=
  let ids := scored.flags.map (fun f => f.id)
  ((patternSuggestions ids) ++ [baselineSuggestion]).take 4

/-- The fence-stripping step of `safeJsonParse` in apps/api/lib/gemini.ts:
`replace(/^```json\s*/i, "").replace(/^```\s*/i, "").replace(/```$/i, "")`
followed by `.trim()`. -/
def cleanModelText (text : String) : String :=
  let s1 :=
    if listStartsWith (jsToLower text).data "```json".data then
      ⟨(text.data.drop 7).dropWhile isJsSpace⟩
    else text
  let s2 :=
    if listStartsWith (jsToLower s1).data "```".data then
      ⟨(s1.data.drop 3).dropWhile isJsSpace⟩
    else s1
  let s3 :=
    if listStartsWith s2.data.reverse "```".data.reverse then
      ⟨(s2.data.reverse.drop 3).reverse⟩
    else s2
  jsTrim s3

/-- Model of JavaScript `s.indexOf(c)`: index of the first occurrence, or -1. -/
def jsIndexOfChar (s : String) (c : Char) : Int :=
  match s.data.findIdx? (· == c) with
  | some i => (i : Int)
  | none => -1

/-- Model of JavaScript `s.lastIndexOf(c)`: index of the last occurrence, or -1. -/
def jsLastIndexOfChar (s : String) (c : Char) : Int :=
  match s.data.reverse.findIdx? (· == c) with
  | some i => (s.data.length : Int) - 1 - (i : Int)
  | none => -1

/-- Model of JavaScript `s.slice(start, stop)` for non-negative raw indices. -/
def jsSlice (s : String) (start stop : Nat) : String :=
  ⟨(s.data.take stop).drop start⟩

/-- How a `safeJsonParse` call can fail: a propagated `JSON.parse` exception
(tier 2 rethrow) or the explicit "Gemini returned invalid JSON" error. -/
inductive ParseFailure
  | parseError (details : String)
  | invalidJson
deriving DecidableEq

/-- `safeJsonParse` from apps/api/lib/gemini.ts.  The host built-in
`JSON.parse` is modelled by the `parse` parameter: `Except.error` models a
thrown `SyntaxError`.  Tier 1 parses the fence-stripped text, tier 2 slices
between the first `{` and the last `}` and reparses (a failure there
propagates as `ParseFailure.parseError`), and when no such brace pair
exists the explicit invalid-JSON error is thrown. -/
def safeJsonParse {α : Type} (parse : String → Except String α) (text : String) :
    Except ParseFailure α :=
  let cleaned := cleanModelText text
  match parse cleaned with
  | .ok v => .ok v
  | .error _ =>
    let firstBrace := jsIndexOfChar cleaned '{'
    let lastBrace := jsLastIndexOfChar cleaned '}'
    if 0 ≤ firstBrace ∧ firstBrace < lastBrace then
      match parse (jsSlice cleaned firstBrace.toNat (lastBrace.toNat + 1)) with
      | .ok v => .ok v
      | .error e => .error (.parseError e)
    else .error .invalidJson

/-- Model of the host built-in `Number()` restricted to optional-sign integer
literals: `none` models `NaN`; a whitespace-only string converts to 0,
as in JavaScript. -/
def jsNumberInt (s : String) : Option Int :=
  let t := jsTrim s
  match t.data with
  | [] => some 0
  | '-' :: rest => if rest ≠ [] ∧ rest.all Char.isDigit then
      some (-(rest.foldl (fun n c => n * 10 + ((c.toNat : Int) - 48)) 0)) else none
  | '+' :: rest => if rest ≠ [] ∧ rest.all Char.isDigit then
      some (rest.foldl (fun n c => n * 10 + ((c.toNat : Int) - 48)) 0) else none
  | l => if l.all Char.isDigit then
      some (l.foldl (fun n c => n * 10 + ((c.toNat : Int) - 48)) 0) else none

/-- The `const parsed = retryAfter ? Number(retryAfter) : NaN` step of
`getRetryDelayMs`: a missing or empty (falsy) header gives `NaN` (`none`). -/
def parsedRetryAfter (retryAfter : Option String) : Option Int :=
  match retryAfter with
  | some s => if s = "" then none else jsNumberInt s
  | none => none

/-- `getRetryDelayMs` from apps/api/lib/gemini.ts.  `jitter` is the value of
`Math.floor(Math.random() * 250)`, passed in as a parameter to model the
host randomness source; delays are in milliseconds. -/
def getRetryDelayMs (attempt : Nat) (retryAfter : Option String) (jitter : Nat) : Int :=
  match parsedRetryAfter retryAfter with
  | some p => if 0 < p then p * 1000 else 600 * 2 ^ attempt + jitter
  | none => 600 * 2 ^ attempt + jitter

/-- The part of an HTTP response observed by `fetchWithRetry`: its status and
its `retry-after` header (`none` when the header is absent). -/
structure HttpResponse where
  status : Nat
  retryAfter : Option String
deriving DecidableEq

/-- `RETRYABLE_STATUS` from apps/api/lib/gemini.ts. -/
def RETRYABLE_STATUS : List Nat := [429]

/-- `MAX_RETRIES` from apps/api/lib/gemini.ts. -/
def MAX_RETRIES : Nat := 2

/-- The retry loop of `fetchWithRetry` from apps/api/lib/gemini.ts, started
at a given attempt counter.  The host `fetch` is modelled by `responses`
(the response returned by the k-th request) and `Math.random` by `jitters`.
`left` is the number of retries still allowed, so the source's exit
condition `!RETRYABLE_STATUS.has(status) || attempt >= MAX_RETRIES` is
`!retryable || left = 0`.  Returns the final response together with the
list of delays slept, in order. -/
def fetchWithRetryGo (responses : Nat → HttpResponse) (jitters : Nat → Nat) :
    Nat → Nat → HttpResponse × List Int
  | attempt, left =>
    let response := responses attempt
    if !(RETRYABLE_STATUS.contains response.status) then (response, [])
    else
      match left with
      | 0 => (response, [])
      | left' + 1 =>
        let delayMs := getRetryDelayMs attempt response.retryAfter (jitters attempt)
        let next := fetchWithRetryGo responses jitters (attempt + 1) left'
        (next.1, delayMs :: next.2)

/-- `fetchWithRetry` from apps/api/lib/gemini.ts: the loop starting at
attempt 0 with `MAX_RETRIES` retries allowed. -/
def fetchWithRetry (responses : Nat → HttpResponse) (jitters : Nat → Nat) :
    HttpResponse × List Int :=
  fetchWithRetryGo responses jitters 0 MAX_RETRIES

/-- `GeminiIngredient` from apps/api/lib/gemini.ts. -/
structure GeminiIngredient where
  name : String
  slug : String
  risk : IngredientRisk
  notes : Option String
deriving DecidableEq

/-- `GeminiScanOutput` from apps/api/lib/gemini.ts. -/
structure GeminiScanOutput where
  ingredients : List GeminiIngredient
  summary : String
deriving DecidableEq

/-- The overlay record at the `getIngredientBySlug` boundary of
apps/api/lib/firestore.ts, restricted to the fields read by
`createScanResult` (`name`, `slug`, `risk`, `notes`). -/
structure OverlayRecord where
  name : String
  slug : String
  risk : IngredientRisk
  notes : Option String
deriving DecidableEq

/-- `ScanResult` from packages/shared/src/index.ts. -/
structure ScanResult where
  ingredients : List Ingredient
  overallRisk : IngredientRisk
  summary : String
deriving DecidableEq

/-- The input object of `createScanResult` in apps/api/lib/scan.ts. -/
structure ScanInput where
  text : String
  ingredients : List String
  geminiData : Option GeminiScanOutput
  skipAi : Bool

/-- The external world observed by one `createScanResult` call: the two
possible `analyzeWithGemini` calls (an `Except.error` models a thrown
exception), the truthiness of `process.env.GEMINI_API_KEY`, the
`isFirestoreConfigured()` answer, and the per-slug `getIngredientBySlug`
lookup (an `Except.error` models a thrown/rejected lookup). -/
structure ScanEnv where
  extractFromText : Except Unit GeminiScanOutput
  extractFromNames : Except Unit GeminiScanOutput
  hasApiKey : Bool
  firestoreConfigured : Bool
  overlay : String → Except Unit (Option OverlayRecord)

/-- Model of JavaScript `a || b` on optional strings: an empty string is
falsy. -/
def jsOrStr (a b : Option String) : Option String :=
  match a with
  | some s => if s = "" then b else some s
  | none => b

/-- The `aiBySlug` map of `createScanResult`: `new Map(list.map(i =>
[i.slug, i])).get(slug)` keeps the last entry per key, hence the reverse
search. -/
def aiBySlugFind (items : List GeminiIngredient) (slug : String) : Option GeminiIngredient :=
  items.reverse.find? (fun i => i.slug == slug)

/-- The AI-derived ingredient built when no overlay record applies
(apps/api/lib/scan.ts lines 109-114): `risk` is
`normalizeRisk(ai?.risk || "caution")` and `notes` is `ai?.notes`. -/
def aiDerivedIngredient (ai : String → Option GeminiIngredient) (name : String) : Ingredient :=
  let slug := slugify name
  let aiItem := ai slug
  ⟨name, slug,
   normalizeRisk (some (match aiItem with | some a => riskToString a.risk | none => "caution")),
   aiItem.bind GeminiIngredient.notes⟩

/-- The per-name merge of `createScanResult` (apps/api/lib/scan.ts lines
88-116): try the overlay when Firestore is configured, catching any lookup
failure, else fall back to the AI-derived record. -/
def resolveIngredient (canUseFirestore : Bool)
    (overlay : String → Except Unit (Option OverlayRecord))
    (ai : String → Option GeminiIngredient) (name : String) : Ingredient :=
  if canUseFirestore then
    match overlay (slugify name) with
    | .ok (some fromStore) =>
      ⟨fromStore.name, fromStore.slug,
       normalizeRisk (some (riskToString fromStore.risk)),
       jsOrStr fromStore.notes ((ai (slugify name)).bind GeminiIngredient.notes)⟩
    | .ok none => aiDerivedIngredient ai name
    | .error _ => aiDerivedIngredient ai name
  else aiDerivedIngredient ai name

/-- `summarizeFromIngredients` from apps/api/lib/scan.ts. -/
def summarizeFromIngredients (ingredients : List Ingredient) : String :=
  if ingredients.length = 0 then
    "No recognizable ingredients were found in this scan."
  else
    "Detected " ++ toString ingredients.length ++ " ingredient(s): " ++
    toString (ingredients.filter (fun i => i.risk == .avoid)).length ++ " avoid, " ++
    toString (ingredients.filter (fun i => i.risk == .caution)).length ++ " caution, " ++
    toString (ingredients.filter (fun i => i.risk == .safe)).length ++ " safe."

/-- The fallback summary string of apps/api/lib/scan.ts line 61. -/
def fallbackSummary : String :=
  "Fallback parser used because AI extraction was unavailable."

/-- The local fallback split of `createScanResult`
(`text.split(/[,;\n]/g).map(trim).filter(Boolean)`). -/
def splitFallback (text : String) : List String :=
  ((jsSplitAny text [',', ';', '\n']).map jsTrim).filter (fun s => s ≠ "")

/-- The fallback extraction built in the catch-block of `createScanResult`
(apps/api/lib/scan.ts lines 50-63): every split part becomes an ingredient
at `risk = "caution"`. -/
def fallbackExtraction (text : String) : GeminiScanOutput :=
  ⟨(splitFallback text).map (fun n => ⟨n, slugify n, .caution, none⟩), fallbackSummary⟩

/-- `createScanResult` from apps/api/lib/scan.ts, as a total function of the
input and the external environment.  The source's `await`/`try`/`catch`
control flow is the corresponding `Except` case analysis. -/
def createScanResult (input : ScanInput) (env : ScanEnv) : ScanResult :=
  let text := jsTrim input.text
  let directIngredients := (input.ingredients.map jsTrim).filter (fun s => s ≠ "")
  let shouldCallGemini := input.geminiData.isNone && !input.skipAi
  let geminiData : GeminiScanOutput :=
    if shouldCallGemini ∧ text ≠ "" then
      match env.extractFromText with
      | .ok g => g
      | .error _ => fallbackExtraction text
    else if shouldCallGemini ∧ directIngredients ≠ [] ∧ env.hasApiKey then
      match env.extractFromNames with
      | .ok g => g
      | .error _ => ⟨[], ""⟩
    else input.geminiData.getD ⟨[], ""⟩
  let sourceNames :=
    if geminiData.ingredients ≠ [] then geminiData.ingredients.map (fun i => i.name)
    else directIngredients
  let uniqueNames := dedupe sourceNames
  let ingredients := uniqueNames.map
    (resolveIngredient env.firestoreConfigured env.overlay (aiBySlugFind geminiData.ingredients))
  let summary := if geminiData.summary ≠ "" then geminiData.summary
    else summarizeFromIngredients ingredients
  ⟨ingredients, getOverallRisk ingredients, summary⟩

/-- Replacing an overlay failure by a successful "not found" answer: the
degraded view of a lookup outcome. -/
def degradeLookup : Except Unit (Option OverlayRecord) → Option OverlayRecord
  | .ok o => o
  | .error _ => none

example : slugify "  Sodium Hypochlorite! " = "sodium-hypochlorite" := by decide
example : dedupe ["Bleach", "BLEACH", "Vinegar"] = ["Bleach", "Vinegar"] := by decide
example : dedupe ["!!!"] = [] := by decide
example : normalizeRisk (some "HIGH") = .avoid := by decide
example : normalizeRisk (some " Unknown ") = .caution := by decide
example : normalizeRisk none = .safe := by decide


/-- Round-trip: re-normalizing the string form of an already-normalized risk
is the identity (`normalizeRisk(item.risk)` inside `getOverallRisk`). -/
theorem normalizeRisk_riskToString (r : IngredientRisk) :
    normalizeRisk (some (riskToString r)) = r := by
  cases r <;> decide

/-- C5: `normalizeRisk` trims and lowercases its input (with `null`,
`undefined` and the empty string all normalizing like `""`), maps the four
high-severity synonyms to `avoid`, the four medium synonyms to `caution`,
and everything else to `safe`; it is total by construction. -/
theorem normalizeRisk_classification (value : Option String) :
    (normalizeRisk value = .avoid ↔
      jsToLower (jsTrim (value.getD "")) ∈ (["avoid", "high", "severe", "very high"] : List String)) ∧
    (normalizeRisk value = .caution ↔
      jsToLower (jsTrim (value.getD "")) ∈ (["caution", "moderate", "medium", "unknown"] : List String)) ∧
    (normalizeRisk value = .safe ↔
      (jsToLower (jsTrim (value.getD "")) ∉ (["avoid", "high", "severe", "very high"] : List String) ∧
       jsToLower (jsTrim (value.getD "")) ∉ (["caution", "moderate", "medium", "unknown"] : List String))) := by
  by_cases hA : jsToLower (jsTrim (value.getD "")) ∈ (["avoid", "high", "severe", "very high"] : List String)
  · have hC : jsToLower (jsTrim (value.getD "")) ∉
        (["caution", "moderate", "medium", "unknown"] : List String) := by
      simp only [List.mem_cons, List.not_mem_nil, or_false] at hA ⊢
      rcases hA with h | h | h | h <;> rw [h] <;> decide
    simp [normalizeRisk, hA, hC]
  · by_cases hC : jsToLower (jsTrim (value.getD "")) ∈
        (["caution", "moderate", "medium", "unknown"] : List String)
    · simp [normalizeRisk, hA, hC]
    · simp [normalizeRisk, hA, hC]

/-- Witness for `normalizeRisk_classification` at the concrete input "HIGH". -/
theorem normalizeRisk_classification_witness : normalizeRisk (some "HIGH") = .avoid :=
  (normalizeRisk_classification (some "HIGH")).1.mpr (by decide)

/-- The fold of `getOverallRisk`, with the (identity) re-normalization step
removed, from any accumulator: the result dominates the accumulator and
every element, and is the accumulator or an attained element risk. -/
theorem getOverallRisk_foldl_spec (l : List Ingredient) (init : IngredientRisk) :
    (l.foldl (fun top item => if riskOrder top < riskOrder item.risk then item.risk else top)
      init = init ∨
     ∃ i ∈ l, i.risk = l.foldl
      (fun top item => if riskOrder top < riskOrder item.risk then item.risk else top) init) ∧
    riskOrder init ≤ riskOrder (l.foldl
      (fun top item => if riskOrder top < riskOrder item.risk then item.risk else top) init) ∧
    ∀ i ∈ l, riskOrder i.risk ≤ riskOrder (l.foldl
      (fun top item => if riskOrder top < riskOrder item.risk then item.risk else top) init) := by
  induction l generalizing init with
  | nil => exact ⟨Or.inl rfl, le_refl _, by simp⟩
  | cons x xs ih =>
    simp only [List.foldl_cons]
    have ih1 := ih (if riskOrder init < riskOrder x.risk then x.risk else init)
    have hstepinit : riskOrder init ≤
        riskOrder (if riskOrder init < riskOrder x.risk then x.risk else init) := by
      split <;> omega
    have hstepx : riskOrder x.risk ≤
        riskOrder (if riskOrder init < riskOrder x.risk then x.risk else init) := by
      split <;> omega
    refine ⟨?_, le_trans hstepinit ih1.2.1, ?_⟩
    · rcases ih1.1 with h | ⟨i, hi, hr⟩
      · rw [h]
        split
        · exact Or.inr ⟨x, List.mem_cons_self x xs, rfl⟩
        · exact Or.inl rfl
      · exact Or.inr ⟨i, List.mem_cons_of_mem x hi, hr⟩
    · intro i hi
      rcases List.mem_cons.mp hi with rfl | hmem
      · exact le_trans hstepx ih1.2.1
      · exact ih1.2.2 i hmem

/-- Unfolding `getOverallRisk` to the simplified fold, using the round-trip
property of `normalizeRisk` on already-valid risk strings. -/
theorem getOverallRisk_eq_foldl (l : List Ingredient) :
    getOverallRisk l = l.foldl
      (fun top item => if riskOrder top < riskOrder item.risk then item.risk else top)
      IngredientRisk.safe := by
  unfold getOverallRisk
  exact List.foldl_ext _ _ IngredientRisk.safe
    (fun acc a _ => by simp [normalizeRisk_riskToString])

/-- C6: `getOverallRisk` is the maximum under the severity order
safe(1) < caution(2) < avoid(3): it dominates every ingredient risk, it
is `safe` or attained by some ingredient, and the empty list gives `safe`. -/
theorem getOverallRisk_is_max (l : List Ingredient) :
    (∀ i ∈ l, riskOrder i.risk ≤ riskOrder (getOverallRisk l)) ∧
    (getOverallRisk l = .safe ∨ ∃ i ∈ l, i.risk = getOverallRisk l) ∧
    (l = [] → getOverallRisk l = .safe) := by
  have h := getOverallRisk_foldl_spec l .safe
  rw [getOverallRisk_eq_foldl]
  exact ⟨h.2.2, h.1, fun he => by rw [he]; rfl⟩

/-- Witness for `getOverallRisk_is_max` on a concrete mixed-risk list. -/
theorem getOverallRisk_is_max_witness :
    riskOrder IngredientRisk.avoid ≤ riskOrder (getOverallRisk
      [⟨"a", "a", .safe, none⟩, ⟨"b", "b", .avoid, none⟩, ⟨"c", "c", .caution, none⟩]) :=
  (getOverallRisk_is_max
    [⟨"a", "a", .safe, none⟩, ⟨"b", "b", .avoid, none⟩, ⟨"c", "c", .caution, none⟩]).1
    ⟨"b", "b", .avoid, none⟩ (by decide)

/-- The dedupe filter yields a sublist of its input: order and casing of
kept names are preserved. -/
theorem dedupeAux_sublist (names : List String) : ∀ seen, (dedupeAux seen names).Sublist names := by
  induction names with
  | nil => intro seen; simp [dedupeAux]
  | cons n rest ih =>
    intro seen
    simp only [dedupeAux]
    split
    · exact (ih seen).trans (List.sublist_cons_self n rest)
    · exact (ih (slugify n :: seen)).cons₂ n

/-- Membership in the dedupe filter: a name is kept exactly when its slug is
non-empty, not already in `seen`, and the name sits at a position before
which no other name has the same slug. -/
theorem mem_dedupeAux (names : List String) : ∀ (seen : List String) (n : String),
    n ∈ dedupeAux seen names ↔
      (slugify n ≠ "" ∧ seen.contains (slugify n) = false ∧
       ∃ l1 l2, names = l1 ++ n :: l2 ∧ ∀ m ∈ l1, slugify m ≠ slugify n) := by
  induction names with
  | nil =>
    intro seen n
    simp only [dedupeAux, List.not_mem_nil, false_iff, not_and]
    intro _ _
    rintro ⟨l1, l2, h, -⟩
    cases l1 <;> simp_all
  | cons x rest ih =>
    intro seen n
    simp only [dedupeAux]
    split
    · rename_i hdrop
      rw [ih seen n]
      constructor
      · rintro ⟨hne, hseen, l1, l2, heq, hl1⟩
        refine ⟨hne, hseen, x :: l1, l2, by rw [heq]; rfl, ?_⟩
        intro m hm
        rcases List.mem_cons.mp hm with rfl | hmem
        · rcases hdrop with h0 | h0
          · rw [h0]; exact fun hc => hne hc.symm
          · intro hc; rw [hc] at h0; rw [h0] at hseen; cases hseen
        · exact hl1 m hmem
      · rintro ⟨hne, hseen, l1, l2, heq, hl1⟩
        cases l1 with
        | nil =>
          simp only [List.nil_append, List.cons.injEq] at heq
          rcases heq with ⟨rfl, -⟩
          rcases hdrop with h0 | h0
          · exact absurd h0 hne
          · rw [h0] at hseen; cases hseen
        | cons y l1t =>
          simp only [List.cons_append, List.cons.injEq] at heq
          rcases heq with ⟨rfl, heqr⟩
          exact ⟨hne, hseen, l1t, l2, heqr,
            fun m hm => hl1 m (List.mem_cons_of_mem _ hm)⟩
    · rename_i hkeep
      push_neg at hkeep
      simp only [List.mem_cons, ih (slugify x :: seen) n]
      constructor
      · rintro (rfl | ⟨hne, hseen, l1, l2, heq, hl1⟩)
        · refine ⟨hkeep.1, ?_, [], rest, rfl, by simp⟩
          have := hkeep.2
          simp only [Bool.not_eq_true] at this
          exact this
        · simp only [List.contains_cons, Bool.or_eq_false_iff, beq_eq_false_iff_ne,
            ne_eq] at hseen
          refine ⟨hne, hseen.2, x :: l1, l2, by rw [heq]; rfl, ?_⟩
          intro m hm
          rcases List.mem_cons.mp hm with rfl | hmem
          · exact fun hc => hseen.1 hc.symm
          · exact hl1 m hmem
      · rintro ⟨hne, hseen, l1, l2, heq, hl1⟩
        cases l1 with
        | nil =>
          simp only [List.nil_append, List.cons.injEq] at heq
          exact Or.inl heq.1.symm
        | cons y l1t =>
          simp only [List.cons_append, List.cons.injEq] at heq
          rcases heq with ⟨rfl, heqr⟩
          refine Or.inr ⟨hne, ?_, l1t, l2, heqr,
            fun m hm => hl1 m (List.mem_cons_of_mem _ hm)⟩
          simp only [List.contains_cons, Bool.or_eq_false_iff, beq_eq_false_iff_ne, ne_eq]
          exact ⟨fun hc => hl1 _ (List.mem_cons_self _ l1t) hc.symm, hseen⟩

/-- The dedupe filter never emits two names with the same slug and never
emits a name whose slug is already in `seen` or empty. -/
theorem dedupeAux_slugs_nodup (names : List String) : ∀ seen,
    ((dedupeAux seen names).map slugify).Nodup ∧
    ∀ s ∈ (dedupeAux seen names).map slugify, seen.contains s = false ∧ s ≠ "" := by
  induction names with
  | nil => intro seen; simp [dedupeAux]
  | cons x rest ih =>
    intro seen
    simp only [dedupeAux]
    split
    · exact ih seen
    · rename_i hkeep
      push_neg at hkeep
      have ihx := ih (slugify x :: seen)
      simp only [List.map_cons, List.nodup_cons]
      refine ⟨⟨?_, ihx.1⟩, ?_⟩
      · intro hmem
        have h2 := (ihx.2 (slugify x) hmem).1
        simp [List.contains_cons] at h2
      · intro s hs
        rcases List.mem_cons.mp hs with rfl | hmem
        · have := hkeep.2
          simp only [Bool.not_eq_true] at this
          exact ⟨this, hkeep.1⟩
        · have := ihx.2 s hmem
          simp only [List.contains_cons, Bool.or_eq_false_iff, beq_eq_false_iff_ne, ne_eq] at this
          exact ⟨this.1.2, this.2⟩

/-- C9 (amended): `dedupe` keeps a sublist of the input (first-seen casing
and order preserved), emits at most one name per slug and never an
empty-slug name, and a name is kept exactly when its slug is non-empty and
it occurs at a position not preceded by any name of the same slug. -/
theorem dedupe_spec (names : List String) :
    (dedupe names).Sublist names ∧
    ((dedupe names).map slugify).Nodup ∧
    (∀ n, n ∈ dedupe names ↔
      (slugify n ≠ "" ∧
       ∃ l1 l2, names = l1 ++ n :: l2 ∧ ∀ m ∈ l1, slugify m ≠ slugify n)) := by
  refine ⟨dedupeAux_sublist names [], (dedupeAux_slugs_nodup names []).1, ?_⟩
  intro n
  rw [dedupe, mem_dedupeAux names [] n]
  simp [List.contains]

/-- Witness for `dedupe_spec`: the spec example input, where the first
"Bleach" is kept. -/
theorem dedupe_spec_witness : "Bleach" ∈ dedupe ["Bleach", "BLEACH", "Vinegar"] :=
  ((dedupe_spec ["Bleach", "BLEACH", "Vinegar"]).2.2 "Bleach").mpr
    ⟨by decide, [], ["BLEACH", "Vinegar"], rfl, by simp⟩

/-- C9 counterexample: a name whose slug is empty is discarded even though
it is the first (and only) occurrence of its slug, so the output does not
keep the first occurrence per slug for empty slugs. -/
theorem dedupe_drops_empty_slug :
    dedupe ["!!!"] = [] ∧ ¬ ("!!!" ∈ dedupe ["!!!"]) := by
  refine ⟨by decide, by decide⟩

/-- C4 (amended): the swap-suggestion list has at most 4 entries, and the
baseline "microfiber" entry is included whenever fewer than 4 pattern
suggestions matched (with 4 or more pattern matches, `slice(0, 4)` cuts
the baseline off). -/
theorem getSwapSuggestions_spec (scored : ScoredProduct) (preferences : RulePreferences) :
    (getSwapSuggestions scored preferences).length ≤ 4 ∧
    ((patternSuggestions (scored.flags.map (fun f => f.id))).length < 4 →
      baselineSuggestion ∈ getSwapSuggestions scored preferences) := by
  unfold getSwapSuggestions
  constructor
  · exact List.length_take_le 4 _
  · intro h
    rw [List.take_of_length_le]
    · simp
    · simp only [List.length_append, List.length_cons, List.length_nil]
      omega

/-- Witness for `getSwapSuggestions_spec`: with no fired flags there are no
pattern matches, so the baseline entry is returned. -/
theorem getSwapSuggestions_spec_witness :
    baselineSuggestion ∈ getSwapSuggestions ⟨[], [], "keep"⟩ ⟨none, none, none, none, none⟩ :=
  (getSwapSuggestions_spec ⟨[], [], "keep"⟩ ⟨none, none, none, none, none⟩).2 (by decide)

/-- C4 counterexample: a product whose text fires both bleach and fragrance
rules yields 4 pattern suggestions, and the appended baseline entry is
truncated away by `slice(0, 4)` — the result does not always include the
baseline "microfiber + warm water" entry. -/
theorem getSwapSuggestions_baseline_dropped :
    ¬ (baselineSuggestion ∈ getSwapSuggestions
        (scoreCleaningProduct ⟨"", "bleach and fragrance", [], []⟩
          ⟨none, some true, none, none, none⟩)
        ⟨none, some true, none, none, none⟩) := by
  decide

/-- A conditional singleton is a sublist of the singleton. -/
theorem ite_cons_sublist {α : Type} (c : Prop) [Decidable c] (a : α) :
    (if c then [a] else []).Sublist [a] := by
  split
  · exact List.Sublist.refl _
  · exact List.nil_sublist _

/-- The flag list produced by the engine is always a sublist of the nine
rule flags in rule order. -/
theorem scoreCleaningProduct_flags_sublist (product : CleaningProduct)
    (preferences : RulePreferences) :
    (scoreCleaningProduct product preferences).flags.Sublist ruleFlagList := by
  show (scoreCleaningProduct product preferences).flags.Sublist
    ([fragranceFlag] ++ ([bleachFlag] ++ ([ammoniaFlag] ++ ([quatsFlag] ++ ([corrosiveFlag] ++
     ([alkaliFlag] ++ ([acidFlag] ++ ([solventFlag] ++ [aerosolFlag]))))))))
  exact (ite_cons_sublist _ _).append ((ite_cons_sublist _ _).append
    ((ite_cons_sublist _ _).append ((ite_cons_sublist _ _).append
    ((ite_cons_sublist _ _).append ((ite_cons_sublist _ _).append
    ((ite_cons_sublist _ _).append ((ite_cons_sublist _ _).append
    (ite_cons_sublist _ _))))))))

/-- C10: the flag ids of any engine run are pairwise distinct and drawn from
the fixed nine-id set (hence at most nine flags), and each id's level is
fixed: info for fragrance/quats/solvent/aerosol, caution for the other
five. -/
theorem scoreCleaningProduct_flag_invariants (product : CleaningProduct)
    (preferences : RulePreferences) :
    (((scoreCleaningProduct product preferences).flags.map RuleFlag.id).Nodup) ∧
    (scoreCleaningProduct product preferences).flags.length ≤ 9 ∧
    (∀ f ∈ (scoreCleaningProduct product preferences).flags,
      (f.id, f.level) ∈ ([("contains_fragrance", "info"), ("contains_bleach", "caution"),
        ("contains_ammonia", "caution"), ("contains_quats", "info"),
        ("corrosive_warning", "caution"), ("strong_alkali", "caution"),
        ("strong_acid", "caution"), ("solvent_based", "info"), ("aerosol", "info")] :
        List (String × String))) := by
  have hsub := scoreCleaningProduct_flags_sublist product preferences
  refine ⟨?_, ?_, ?_⟩
  · exact ((by decide : (ruleFlagList.map RuleFlag.id).Nodup)).sublist (hsub.map RuleFlag.id)
  · exact le_trans hsub.length_le (by decide)
  · intro f hf
    have hf9 : f ∈ ruleFlagList := hsub.subset hf
    fin_cases hf9 <;> decide

/-- Witness for `scoreCleaningProduct_flag_invariants`: a corrosive warning
fires the corrosive rule, whose id/level pair is in the fixed table. -/
theorem scoreCleaningProduct_flag_invariants_witness :
    (corrosiveFlag.id, corrosiveFlag.level) ∈ ([("contains_fragrance", "info"),
      ("contains_bleach", "caution"), ("contains_ammonia", "caution"),
      ("contains_quats", "info"), ("corrosive_warning", "caution"),
      ("strong_alkali", "caution"), ("strong_acid", "caution"),
      ("solvent_based", "info"), ("aerosol", "info")] : List (String × String)) :=
  (scoreCleaningProduct_flag_invariants ⟨"", "", [], ["Corrosive"]⟩
    ⟨none, none, none, none, none⟩).2.2 corrosiveFlag (by decide)

/-- The overall bucket of the engine, written as one conditional over the
produced flag list (the source computes it by two sequential
reassignments of `overall`). -/
theorem scoreCleaningProduct_overall_eq (product : CleaningProduct)
    (preferences : RulePreferences) :
    (scoreCleaningProduct product preferences).overall =
      (if 3 ≤ (scoreCleaningProduct product preferences).flags.length ∧
          (scoreCleaningProduct product preferences).flags.any
            (fun f => strIncludes f.id "corrosive" || strIncludes f.id "strong_")
       then "consider_swap"
       else if (scoreCleaningProduct product preferences).flags.any
            (fun f => f.level == "caution")
       then "use_with_care" else "keep") := rfl

/-- C3: the overall bucket is "consider_swap" exactly when at least 3 flags
fired and at least one fired flag id contains "corrosive" or starts with
"strong_"; otherwise it is "use_with_care" exactly when a caution-level
flag fired, and "keep" exactly when none did.  (On the nine producible flag
ids, the source's `includes("strong_")` test coincides with a
starts-with test.) -/
theorem scoreCleaningProduct_bucket (product : CleaningProduct)
    (preferences : RulePreferences) :
    ((scoreCleaningProduct product preferences).overall = "consider_swap" ↔
      (3 ≤ (scoreCleaningProduct product preferences).flags.length ∧
       ∃ f ∈ (scoreCleaningProduct product preferences).flags,
         strIncludes f.id "corrosive" = true ∨ strStartsWith f.id "strong_" = true)) ∧
    ((scoreCleaningProduct product preferences).overall ≠ "consider_swap" →
      (((scoreCleaningProduct product preferences).overall = "use_with_care" ↔
        ∃ f ∈ (scoreCleaningProduct product preferences).flags, f.level = "caution") ∧
       ((scoreCleaningProduct product preferences).overall = "keep" ↔
        ¬ ∃ f ∈ (scoreCleaningProduct product preferences).flags, f.level = "caution"))) := by
  have hsub := scoreCleaningProduct_flags_sublist product preferences
  have hany : ((scoreCleaningProduct product preferences).flags.any
      (fun f => strIncludes f.id "corrosive" || strIncludes f.id "strong_")) = true ↔
      ∃ f ∈ (scoreCleaningProduct product preferences).flags,
        strIncludes f.id "corrosive" = true ∨ strStartsWith f.id "strong_" = true := by
    rw [List.any_eq_true]
    constructor
    · rintro ⟨f, hf, hP⟩
      refine ⟨f, hf, ?_⟩
      have hf9 : f ∈ ruleFlagList := hsub.subset hf
      fin_cases hf9
      · exact absurd hP (by decide)
      · exact absurd hP (by decide)
      · exact absurd hP (by decide)
      · exact absurd hP (by decide)
      · exact Or.inl (by decide)
      · exact Or.inr (by decide)
      · exact Or.inr (by decide)
      · exact absurd hP (by decide)
      · exact absurd hP (by decide)
    · rintro ⟨f, hf, hP⟩
      refine ⟨f, hf, ?_⟩
      have hf9 : f ∈ ruleFlagList := hsub.subset hf
      fin_cases hf9
      · rcases hP with h | h <;> exact absurd h (by decide)
      · rcases hP with h | h <;> exact absurd h (by decide)
      · rcases hP with h | h <;> exact absurd h (by decide)
      · rcases hP with h | h <;> exact absurd h (by decide)
      · decide
      · decide
      · decide
      · rcases hP with h | h <;> exact absurd h (by decide)
      · rcases hP with h | h <;> exact absurd h (by decide)
  have hcaut : ((scoreCleaningProduct product preferences).flags.any
      (fun f => f.level == "caution")) = true ↔
      ∃ f ∈ (scoreCleaningProduct product preferences).flags, f.level = "caution" := by
    rw [List.any_eq_true]
    constructor
    · rintro ⟨f, hf, h⟩
      exact ⟨f, hf, by simpa using h⟩
    · rintro ⟨f, hf, h⟩
      exact ⟨f, hf, by simp [h]⟩
  rw [scoreCleaningProduct_overall_eq]
  split_ifs with h1 h2
  · exact ⟨⟨fun _ => ⟨h1.1, hany.mp h1.2⟩, fun _ => rfl⟩, fun hne => absurd rfl hne⟩
  · refine ⟨⟨fun h => absurd h (by decide), fun hc => absurd ⟨hc.1, hany.mpr hc.2⟩ h1⟩, ?_⟩
    intro _
    exact ⟨⟨fun _ => hcaut.mp h2, fun _ => rfl⟩,
      ⟨fun h => absurd h (by decide), fun hn => absurd (hcaut.mp h2) hn⟩⟩
  · have hnex : ¬ ∃ f ∈ (scoreCleaningProduct product preferences).flags,
        f.level = "caution" := fun hex => h2 (hcaut.mpr hex)
    refine ⟨⟨fun h => absurd h (by decide), fun hc => absurd ⟨hc.1, hany.mpr hc.2⟩ h1⟩, ?_⟩
    intro _
    exact ⟨⟨fun h => absurd h (by decide), fun hex => absurd hex hnex⟩,
      ⟨fun _ => hnex, fun _ => rfl⟩⟩

/-- Witness for `scoreCleaningProduct_bucket`: lye + a strong acid + a
corrosive warning fire three flags, one of them corrosive, escalating the
bucket to "consider_swap". -/
theorem scoreCleaningProduct_bucket_witness :
    (scoreCleaningProduct ⟨"", "lye and muriatic stuff", [], ["Corrosive"]⟩
      ⟨none, none, none, none, none⟩).overall = "consider_swap" :=
  (scoreCleaningProduct_bucket ⟨"", "lye and muriatic stuff", [], ["Corrosive"]⟩
    ⟨none, none, none, none, none⟩).1.mpr
    ⟨by decide, corrosiveFlag, by decide, Or.inl (by decide)⟩

/-- C7 (amended): the three parse tiers of `safeJsonParse`.  Tier 1 parses
the fence-stripped text; on its failure, tier 2 reparses the slice between
the first `{` and the last `}` when such a pair exists; a tier-2 parse
failure propagates as that parse error (not as the invalid-JSON error),
while a missing brace pair yields the explicit invalid-JSON error; and an
`ok` result always comes from one of the two parses — never an unparsed
value. -/
theorem safeJsonParse_tiers {α : Type} (parse : String → Except String α) (text : String) :
    (∀ v, parse (cleanModelText text) = .ok v → safeJsonParse parse text = .ok v) ∧
    (∀ e v, parse (cleanModelText text) = .error e →
      (0 ≤ jsIndexOfChar (cleanModelText text) '{' ∧
       jsIndexOfChar (cleanModelText text) '{' < jsLastIndexOfChar (cleanModelText text) '}') →
      parse (jsSlice (cleanModelText text) (jsIndexOfChar (cleanModelText text) '{').toNat
        ((jsLastIndexOfChar (cleanModelText text) '}').toNat + 1)) = .ok v →
      safeJsonParse parse text = .ok v) ∧
    (∀ e e2, parse (cleanModelText text) = .error e →
      (0 ≤ jsIndexOfChar (cleanModelText text) '{' ∧
       jsIndexOfChar (cleanModelText text) '{' < jsLastIndexOfChar (cleanModelText text) '}') →
      parse (jsSlice (cleanModelText text) (jsIndexOfChar (cleanModelText text) '{').toNat
        ((jsLastIndexOfChar (cleanModelText text) '}').toNat + 1)) = .error e2 →
      safeJsonParse parse text = .error (.parseError e2)) ∧
    (∀ e, parse (cleanModelText text) = .error e →
      ¬ (0 ≤ jsIndexOfChar (cleanModelText text) '{' ∧
         jsIndexOfChar (cleanModelText text) '{' < jsLastIndexOfChar (cleanModelText text) '}') →
      safeJsonParse parse text = .error .invalidJson) ∧
    (∀ v, safeJsonParse parse text = .ok v →
      parse (cleanModelText text) = .ok v ∨
      parse (jsSlice (cleanModelText text) (jsIndexOfChar (cleanModelText text) '{').toNat
        ((jsLastIndexOfChar (cleanModelText text) '}').toNat + 1)) = .ok v) := by
  refine ⟨?_, ?_, ?_, ?_, ?_⟩
  · intro v h
    simp [safeJsonParse, h]
  · intro e v h1 h2 h3
    simp [safeJsonParse, h1, h2, h3]
  · intro e e2 h1 h2 h3
    simp [safeJsonParse, h1, h2, h3]
  · intro e h1 h2
    simp [safeJsonParse, h1, h2]
  · intro v h
    cases hp : parse (cleanModelText text) with
    | ok w =>
      left
      simp only [safeJsonParse, hp] at h
      injection h with hwv
      rw [hwv]
    | error e =>
      right
      simp only [safeJsonParse, hp] at h
      split_ifs at h with hbr
      · cases hq : parse (jsSlice (cleanModelText text)
            (jsIndexOfChar (cleanModelText text) '{').toNat
            ((jsLastIndexOfChar (cleanModelText text) '}').toNat + 1)) with
        | ok w =>
          rw [hq] at h
          injection h with hwv
          rw [hwv]
        | error e2 =>
          rw [hq] at h
          simp at h

/-- C7 counterexample: when the brace-pair slice also fails to parse, the
call fails with the propagated parse error, not with the
invalid-JSON ("malformed model output") error the claim requires. -/
theorem safeJsonParse_tier2_error_propagates :
    safeJsonParse (fun _ => (Except.error "synerr" : Except String Nat)) "{x}" =
      .error (.parseError "synerr") ∧
    ParseFailure.parseError "synerr" ≠ ParseFailure.invalidJson :=
  ⟨rfl, by decide⟩

/-- Witness for `safeJsonParse_tiers`: a tier-2 recovery on a concrete
input whose direct parse fails but whose brace slice parses. -/
theorem safeJsonParse_tiers_witness :
    safeJsonParse (fun s => if s = "{}" then Except.ok (7 : Nat) else Except.error "bad")
      "xx {} yy" = .ok 7 :=
  (safeJsonParse_tiers
      (fun s => if s = "{}" then Except.ok (7 : Nat) else Except.error "bad")
      "xx {} yy").2.1 "bad" 7 rfl ⟨by decide, by decide⟩ rfl

/-- Behavior of the retry loop from any start state: at most `left` delays
are slept, the returned response is the one after the last retry, every
retried request saw a 429, stopping before exhausting the budget means a
non-429 arrived, and the k-th delay is computed by `getRetryDelayMs` from
the k-th response's retry-after header and the k-th jitter draw. -/
theorem fetchWithRetryGo_spec (responses : Nat → HttpResponse) (jitters : Nat → Nat) :
    ∀ left attempt,
      (fetchWithRetryGo responses jitters attempt left).2.length ≤ left ∧
      (fetchWithRetryGo responses jitters attempt left).1 =
        responses (attempt + (fetchWithRetryGo responses jitters attempt left).2.length) ∧
      (∀ j, j < (fetchWithRetryGo responses jitters attempt left).2.length →
        (responses (attempt + j)).status = 429) ∧
      ((fetchWithRetryGo responses jitters attempt left).2.length < left →
        (responses (attempt + (fetchWithRetryGo responses jitters attempt left).2.length)).status
          ≠ 429) ∧
      (∀ k, k < (fetchWithRetryGo responses jitters attempt left).2.length →
        (fetchWithRetryGo responses jitters attempt left).2.get? k =
          some (getRetryDelayMs (attempt + k) (responses (attempt + k)).retryAfter
            (jitters (attempt + k)))) := by
  intro left
  induction left with
  | zero =>
    intro attempt
    have hr : fetchWithRetryGo responses jitters attempt 0 = (responses attempt, []) := by
      rw [fetchWithRetryGo]
      split <;> rfl
    rw [hr]
    refine ⟨le_refl _, by simp, ?_, ?_, ?_⟩
    · intro j hj; simp at hj
    · intro hlt; simp at hlt
    · intro k hk; simp at hk
  | succ leftp ih =>
    intro attempt
    by_cases h429 : (responses attempt).status = 429
    · have hc : RETRYABLE_STATUS.contains (responses attempt).status = true := by
        simp [RETRYABLE_STATUS, h429]
      have hr : fetchWithRetryGo responses jitters attempt (leftp + 1) =
          ((fetchWithRetryGo responses jitters (attempt + 1) leftp).1,
           getRetryDelayMs attempt (responses attempt).retryAfter (jitters attempt) ::
             (fetchWithRetryGo responses jitters (attempt + 1) leftp).2) := by
        rw [fetchWithRetryGo]
        simp [RETRYABLE_STATUS, h429]
      have ih1 := ih (attempt + 1)
      rw [hr]
      refine ⟨?_, ?_, ?_, ?_, ?_⟩
      · simp only [List.length_cons]
        have := (ih (attempt + 1)).1
        omega
      · simp only [List.length_cons]
        rw [ih1.2.1]
        congr 1
        omega
      · intro j hj
        simp only [List.length_cons] at hj
        match j with
        | 0 => simpa using h429
        | jp + 1 =>
          have heq : attempt + (jp + 1) = attempt + 1 + jp := by omega
          rw [heq]
          exact ih1.2.2.1 jp (by omega)
      · intro hlt
        simp only [List.length_cons] at hlt ⊢
        have heq : attempt + ((fetchWithRetryGo responses jitters (attempt + 1) leftp).2.length + 1) =
            attempt + 1 + (fetchWithRetryGo responses jitters (attempt + 1) leftp).2.length := by
          omega
        rw [heq]
        exact ih1.2.2.2.1 (by omega)
      · intro k hk
        simp only [List.length_cons] at hk
        match k with
        | 0 => simp
        | kp + 1 =>
          simp only [List.get?_cons_succ]
          have heq : attempt + (kp + 1) = attempt + 1 + kp := by omega
          rw [heq]
          exact ih1.2.2.2.2 kp (by omega)
    · have hc : RETRYABLE_STATUS.contains (responses attempt).status = false := by
        simp [RETRYABLE_STATUS, h429]
      have hr : fetchWithRetryGo responses jitters attempt (leftp + 1) =
          (responses attempt, []) := by
        rw [fetchWithRetryGo]
        simp [RETRYABLE_STATUS, h429]
      rw [hr]
      refine ⟨by simp, by simp, ?_, ?_, ?_⟩
      · intro j hj; simp at hj
      · intro _; simpa using h429
      · intro k hk; simp at hk

/-- C8 (amended): starting from attempt 0, only HTTP 429 is retried, at most
`MAX_RETRIES = 2` delays are slept (hence at most 3 requests), any other
status ends the loop, and the k-th delay is the parsed retry-after header
times 1000 when that header is present and parses to a positive number,
else 600·2^k plus the jitter draw, which lies in [0, 250). -/
theorem fetchWithRetry_spec (responses : Nat → HttpResponse) (jitters : Nat → Nat)
    (hjit : ∀ k, jitters k ≤ 249) :
    (fetchWithRetry responses jitters).2.length ≤ MAX_RETRIES ∧
    (fetchWithRetry responses jitters).1 =
      responses (fetchWithRetry responses jitters).2.length ∧
    (∀ j, j < (fetchWithRetry responses jitters).2.length → (responses j).status = 429) ∧
    ((fetchWithRetry responses jitters).2.length < MAX_RETRIES →
      (responses (fetchWithRetry responses jitters).2.length).status ≠ 429) ∧
    (∀ k, k < (fetchWithRetry responses jitters).2.length →
      (fetchWithRetry responses jitters).2.get? k =
        some (getRetryDelayMs k (responses k).retryAfter (jitters k))) ∧
    (∀ k ra p, parsedRetryAfter ra = some p → 0 < p →
      getRetryDelayMs k ra (jitters k) = p * 1000) ∧
    (∀ k ra, (¬ ∃ p, parsedRetryAfter ra = some p ∧ 0 < p) →
      getRetryDelayMs k ra (jitters k) = 600 * 2 ^ k + jitters k ∧
      600 * 2 ^ k ≤ getRetryDelayMs k ra (jitters k) ∧
      getRetryDelayMs k ra (jitters k) < 600 * 2 ^ k + 250) := by
  have h := fetchWithRetryGo_spec responses jitters MAX_RETRIES 0
  refine ⟨h.1, ?_, ?_, ?_, ?_, ?_, ?_⟩
  · simpa using h.2.1
  · intro j hj
    simpa using h.2.2.1 j hj
  · intro hlt
    simpa using h.2.2.2.1 hlt
  · intro k hk
    simpa using h.2.2.2.2 k hk
  · intro k ra p hp hpos
    unfold getRetryDelayMs
    rw [hp]
    simp [hpos]
  · intro k ra hnp
    have hj1 : ((jitters k : Int)) ≤ 249 := by exact_mod_cast hjit k
    have hj0 : (0 : Int) ≤ (jitters k : Int) := Int.ofNat_nonneg _
    have heq : getRetryDelayMs k ra (jitters k) = 600 * 2 ^ k + jitters k := by
      unfold getRetryDelayMs
      cases hpa : parsedRetryAfter ra with
      | none => rfl
      | some p =>
        have hnpos : ¬ 0 < p := fun hpos => hnp ⟨p, hpa, hpos⟩
        simp [hnpos]
    refine ⟨heq, ?_, ?_⟩
    · rw [heq]
      generalize (600 * 2 ^ k : Int) = B
      omega
    · rw [heq]
      generalize (600 * 2 ^ k : Int) = B
      omega

/-- Witness for `fetchWithRetry_spec`: one 429 then a 200 gives exactly one
retry. -/
theorem fetchWithRetry_spec_witness :
    (fetchWithRetry (fun k => if k = 0 then ⟨429, none⟩ else ⟨200, none⟩)
      (fun _ => 7)).2.length ≤ MAX_RETRIES :=
  (fetchWithRetry_spec (fun k => if k = 0 then ⟨429, none⟩ else ⟨200, none⟩)
    (fun _ => 7) (fun _ => (by decide : (7 : Nat) ≤ 249))).1

/-- C8 counterexample: with a retry-after header present but equal to "0",
the slept delays are the exponential backoff values 600 and 1200 ms (at
zero jitter), not the header-supplied value 0 the claim requires. -/
theorem fetchWithRetry_headerZero_backoff :
    (fetchWithRetry (fun _ => ⟨429, some "0"⟩) (fun _ => 0)).2 = [600, 1200] ∧
    ¬ ((600 : Int) = 0) := by
  exact ⟨by decide, by decide⟩

/-- Replacing every overlay failure by a successful "not found" lookup does
not change the per-name merge: the catch-block makes a thrown lookup and a
missing record indistinguishable. -/
theorem resolveIngredient_degrade (cfg : Bool)
    (ov : String → Except Unit (Option OverlayRecord))
    (ai : String → Option GeminiIngredient) :
    resolveIngredient cfg (fun s => Except.ok (degradeLookup (ov s))) ai =
      resolveIngredient cfg ov ai := by
  funext name
  cases cfg
  · rfl
  · unfold resolveIngredient
    cases hcase : ov (slugify name) with
    | ok o => cases o <;> simp [degradeLookup, hcase]
    | error e => simp [degradeLookup, hcase]

/-- C2: overlay failures are caught and act exactly like "no override"
(`createScanResult` returns the same result when every overlay error is
replaced by a successful not-found answer, and in particular never
propagates the failure); when the overlay returns a record for a slug, its
name, slug, (normalized) risk and non-empty notes take precedence over the
AI-derived values; and with no record (not found, lookup failure, or
Firestore unconfigured) the AI-derived record stands. -/
theorem createScanResult_overlay (input : ScanInput) (env : ScanEnv) (cfg : Bool)
    (ov : String → Except Unit (Option OverlayRecord))
    (ai : String → Option GeminiIngredient) (name : String) :
    (createScanResult input env =
      createScanResult input
        ⟨env.extractFromText, env.extractFromNames, env.hasApiKey, env.firestoreConfigured,
         fun s => Except.ok (degradeLookup (env.overlay s))⟩) ∧
    (∀ rec, ov (slugify name) = .ok (some rec) →
      resolveIngredient true ov ai name =
        ⟨rec.name, rec.slug, normalizeRisk (some (riskToString rec.risk)),
         jsOrStr rec.notes ((ai (slugify name)).bind GeminiIngredient.notes)⟩) ∧
    ((ov (slugify name) = .ok none ∨ ov (slugify name) = .error () ∨ cfg = false) →
      resolveIngredient cfg ov ai name = aiDerivedIngredient ai name) := by
  refine ⟨?_, ?_, ?_⟩
  · simp only [createScanResult, resolveIngredient_degrade]
  · intro rec h
    unfold resolveIngredient
    simp [h]
  · intro hcase
    rcases hcase with h | h | h
    · unfold resolveIngredient
      simp [h]
    · unfold resolveIngredient
      simp [h]
    · unfold resolveIngredient
      simp [h]

/-- Witness for `createScanResult_overlay`: with Firestore unconfigured the
merge returns the AI-derived ingredient. -/
theorem createScanResult_overlay_witness :
    resolveIngredient false (fun _ => Except.error ()) (fun _ => none) "x" =
      aiDerivedIngredient (fun _ => none) "x" :=
  (createScanResult_overlay ⟨"", [], none, false⟩
    ⟨Except.ok ⟨[], ""⟩, Except.ok ⟨[], ""⟩, false, false, fun _ => Except.ok none⟩
    false (fun _ => Except.error ()) (fun _ => none) "x").2.2 (Or.inr (Or.inr rfl))

/-- When the overlay never yields a record, the per-name merge always
returns the AI-derived ingredient. -/
theorem resolveIngredient_no_override (cfg : Bool)
    (ov : String → Except Unit (Option OverlayRecord))
    (ai : String → Option GeminiIngredient) (name : String)
    (h : ∀ rec, ov (slugify name) ≠ Except.ok (some rec)) :
    resolveIngredient cfg ov ai name = aiDerivedIngredient ai name := by
  cases cfg
  · rfl
  · unfold resolveIngredient
    cases hcase : ov (slugify name) with
    | ok o =>
      cases o with
      | some rec => exact absurd hcase (h rec)
      | none => simp
    | error e => simp

/-- Every ingredient produced by the fallback parser carries
`risk = "caution"`. -/
theorem fallbackExtraction_all_caution (t : String) :
    ∀ a ∈ (fallbackExtraction t).ingredients, a.risk = .caution := by
  intro a ha
  simp only [fallbackExtraction] at ha
  rcases List.mem_map.mp ha with ⟨n, -, rfl⟩
  rfl

/-- The AI-derived record over an all-caution extraction is itself at
caution: both the found-item path and the missing-item default normalize to
`caution`. -/
theorem aiDerived_risk_caution (items : List GeminiIngredient)
    (hall : ∀ a ∈ items, a.risk = .caution) (name : String) :
    (aiDerivedIngredient (aiBySlugFind items) name).risk = .caution := by
  unfold aiDerivedIngredient aiBySlugFind
  cases hfind : items.reverse.find? (fun i => i.slug == slugify name) with
  | none =>
    simp only [hfind]
    decide
  | some a =>
    have ha : a ∈ items := List.mem_reverse.mp (List.mem_of_find?_eq_some hfind)
    have hr := hall a ha
    simp only [hfind, hr]
    decide

/-- The AI-derived record keeps the source name. -/
theorem aiDerived_name (ai : String → Option GeminiIngredient) (name : String) :
    (aiDerivedIngredient ai name).name = name := rfl

/-- C1: with non-empty free text and a failing Extractor call, the scan
still returns (the embedding is total): the summary is exactly the
fallback notice, the ingredient names are the comma/semicolon/newline
split of the trimmed text (deduplicated by slug), and — with the overlay
yielding no override — every ingredient is at `risk = "caution"`. -/
theorem createScanResult_fallback (text : String) (env : ScanEnv)
    (htext : jsTrim text ≠ "")
    (hfail : env.extractFromText = .error ())
    (hov : ∀ s rec, env.overlay s ≠ Except.ok (some rec)) :
    (createScanResult ⟨text, [], none, false⟩ env).summary = fallbackSummary ∧
    (createScanResult ⟨text, [], none, false⟩ env).ingredients.map Ingredient.name =
      dedupe (splitFallback (jsTrim text)) ∧
    (∀ i ∈ (createScanResult ⟨text, [], none, false⟩ env).ingredients,
      i.risk = .caution) := by
  have hresolve : ∀ n, resolveIngredient env.firestoreConfigured env.overlay
      (aiBySlugFind (fallbackExtraction (jsTrim text)).ingredients) n =
      aiDerivedIngredient (aiBySlugFind (fallbackExtraction (jsTrim text)).ingredients) n :=
    fun n => resolveIngredient_no_override _ _ _ n (fun rec => hov (slugify n) rec)
  have hfs : fallbackSummary ≠ "" := by decide
  have hscan : createScanResult ⟨text, [], none, false⟩ env =
      ⟨(dedupe (if (fallbackExtraction (jsTrim text)).ingredients ≠ [] then
          (fallbackExtraction (jsTrim text)).ingredients.map (fun i => i.name) else [])).map
        (resolveIngredient env.firestoreConfigured env.overlay
          (aiBySlugFind (fallbackExtraction (jsTrim text)).ingredients)),
       getOverallRisk ((dedupe (if (fallbackExtraction (jsTrim text)).ingredients ≠ [] then
          (fallbackExtraction (jsTrim text)).ingredients.map (fun i => i.name) else [])).map
        (resolveIngredient env.firestoreConfigured env.overlay
          (aiBySlugFind (fallbackExtraction (jsTrim text)).ingredients))),
       fallbackSummary⟩ := by
    simp only [createScanResult, hfail, Option.isNone_none, Bool.not_false, Bool.and_self,
      List.map_nil, List.filter_nil, ne_eq, htext, not_false_eq_true, if_true, true_and]
    simp [fallbackExtraction, hfs]
  have hnames : (fallbackExtraction (jsTrim text)).ingredients.map (fun i => i.name) =
      splitFallback (jsTrim text) := by
    simp only [fallbackExtraction, List.map_map]
    exact List.map_id' _
  refine ⟨by rw [hscan], ?_, ?_⟩
  · rw [hscan]
    by_cases hparts : splitFallback (jsTrim text) = []
    · have hemp : (fallbackExtraction (jsTrim text)).ingredients = [] := by
        simp [fallbackExtraction, hparts]
      rw [hparts, hemp]
      simp [dedupe, dedupeAux]
    · have hne2 : (fallbackExtraction (jsTrim text)).ingredients ≠ [] := by
        simp [fallbackExtraction, hparts]
      rw [if_pos hne2, hnames, List.map_map]
      have hcong : ∀ n ∈ dedupe (splitFallback (jsTrim text)),
          (Ingredient.name ∘ (resolveIngredient env.firestoreConfigured env.overlay
            (aiBySlugFind (fallbackExtraction (jsTrim text)).ingredients))) n = n := by
        intro n _
        simp only [Function.comp_apply, hresolve n, aiDerived_name]
      rw [List.map_congr_left hcong, List.map_id']
  · rw [hscan]
    intro i hi
    rcases List.mem_map.mp hi with ⟨n, -, rfl⟩
    rw [hresolve n]
    exact aiDerived_risk_caution _ (fallbackExtraction_all_caution (jsTrim text)) n

/-- Witness for `createScanResult_fallback` on concrete text with a failing
extractor and failing overlay lookups. -/
theorem createScanResult_fallback_witness :
    (createScanResult ⟨"Bleach, Vinegar", [], none, false⟩
      ⟨Except.error (), Except.ok ⟨[], ""⟩, false, false, fun _ => Except.error ()⟩).summary =
      fallbackSummary :=
  (createScanResult_fallback "Bleach, Vinegar"
    ⟨Except.error (), Except.ok ⟨[], ""⟩, false, false, fun _ => Except.error ()⟩
    (by decide) rfl (fun _ _ h => Except.noConfusion h)).1
